import Mathlib

/-!
Verification of the National-Parks-DS scripts.

Shallow embedding of the three scripts of the repository:
  clean_national_parks.py, parse_monthly_data.py, process_president_winners.py.
Dataframes are lists of rows or of named columns; CSV cells are a sum of
missing (NaN), string and integer values; Python dicts are insertion-ordered
association lists. Numeric parsing (Python float / pd.to_numeric) is modelled
on the optionally-signed integer literals these datasets contain.
-/

namespace NPDS

/-- A cell value as read by pandas from a CSV: missing (NaN), a string, or a
number. Numbers are modelled as integers, the numeric format of these
datasets. -/
inductive PyVal where
  | na : PyVal
  | str : String → PyVal
  | num : Int → PyVal
deriving DecidableEq, Repr

/-- Python str.strip: remove leading and trailing whitespace characters. -/
def trimChars (l : List Char) : List Char :=
  ((l.dropWhile Char.isWhitespace).reverse.dropWhile Char.isWhitespace).reverse

/-- Python str.lower on the characters of a file stem. -/
def toLowerChars (l : List Char) : List Char := l.map Char.toLower

/-- Python str.replace(",", ""): remove every comma. -/
def removeCommas (l : List Char) : List Char := l.filter (fun c => c ≠ ',')

/-- Numeric value of a digit string. -/
def digitsToNat (l : List Char) : Nat := l.foldl (fun a c => a * 10 + (c.toNat - 48)) 0

/-- Model of Python numeric parsing (float(s) / pd.to_numeric), restricted to
the optionally-signed integer literals these datasets contain; none on
failure. -/
def parseNumber (l : List Char) : Option Int :=
  match l with
  | [] => none
  | '-' :: rest =>
      if rest ≠ [] ∧ rest.all Char.isDigit then some (-(digitsToNat rest : Int)) else none
  | _ => if l.all Char.isDigit then some ((digitsToNat l : Int)) else none

/-- Python str() of a cell, as applied by astype(str): a missing value renders
as the string "nan". -/
def cellToChars : PyVal → List Char
  | .na => ['n', 'a', 'n']
  | .str s => s.data
  | .num n => (toString n).data

/-- remove_commas_from_number from parse_monthly_data.py: NaN gives Python
None (none here); for strings, commas are removed and the result stripped;
"" and "0" give 0; anything else is parsed as a number, with parse failure
giving None; non-string numbers pass through unchanged. -/
def remove_commas_from_number : PyVal → Option Int
  | .na => none
  | .num n => some n
  | .str s =>
      let v := trimChars (removeCommas s.data)
      if v = [] ∨ v = ['0'] then some 0
      else parseNumber v

/-- Row filter of parse_csv_file on the park-name cell (column 0): keep rows
whose park name is a non-null string, nonempty after stripping, and not the
repeated header "Park". A non-string non-null cell would raise
AttributeError in the source and does not occur in these files; such rows are
excluded here. -/
def rowPark (row : List PyVal) : Option String :=
  match row.getD 0 PyVal.na with
  | .str s => if trimChars s.data ≠ [] ∧ s ≠ "Park" then some s else none
  | _ => none

/-- Value extracted from a data row by parse_csv_file: the hard-coded
positional index 6 holds the 2025 monthly value; a row with no column 6
yields 0. -/
def rowValue (row : List PyVal) : Option Int :=
  if 6 < row.length then remove_commas_from_number (row.getD 6 PyVal.na) else some 0

/-- Lookup in a Python dict modelled as an insertion-ordered association
list. -/
def dictGet {α : Type} (d : List (String × α)) (k : String) : Option α :=
  (d.find? (fun p => p.1 = k)).map (fun p => p.2)

/-- Python d[k] = v: overwrite in place when the key exists, else append. -/
def dictInsert {α : Type} (d : List (String × α)) (k : String) (v : α) :
    List (String × α) :=
  if (d.find? (fun p => p.1 = k)).isSome then
    d.map (fun p => if p.1 = k then (k, v) else p)
  else d ++ [(k, v)]

/-- The keys of a dict, in insertion order. -/
def dictKeys {α : Type} (d : List (String × α)) : List String := d.map (fun p => p.1)

/-- parse_csv_file from parse_monthly_data.py over the parsed rows of one
CSV file: a dict from park name to the value at positional column 6. -/
def parse_csv_file (rows : List (List PyVal)) : List (String × Option Int) :=
  rows.foldl (fun acc row =>
    match rowPark row with
    | none => acc
    | some park => dictInsert acc park (rowValue row)) []

/-- Test whether the first list is an initial segment of the second. -/
def startsWith : List Char → List Char → Bool
  | [], _ => true
  | _ :: _, [] => false
  | a :: as, b :: bs => a = b && startsWith as bs

/-- Python substring containment (the in operator): the needle occurs
contiguously somewhere in the haystack. -/
def hasSub (needle : List Char) : List Char → Bool
  | [] => startsWith needle []
  | b :: bs => startsWith needle (b :: bs) || hasSub needle bs

/-- file_mappings from parse_monthly_data.py; order matters, more specific
patterns first. -/
def file_mappings : List (String × String) :=
  [("non recreation visits", "NonRecreationVisits"),
   ("non recreation hours", "NonRecreationHours"),
   ("non recreation overnight stays", "NonRecreationOvernightStays"),
   ("recreation visits", "RecreationVisits"),
   ("recreation hours", "RecreationHours"),
   ("concessioner lodging", "ConcessionerLodging"),
   ("concessioner camping", "ConcessionerCamping"),
   ("tent campers", "TentCampers"),
   ("rv campers", "RVCampers"),
   ("backcountry campers", "Backcountry"),
   ("miscellaneous overnight stays", "MiscellaneousOvernightStays")]

/-- Metric column selected for a file: the first pattern of file_mappings that
is a substring of the lowercased file stem, as in the matching loop with
break in main; none means the file is skipped. -/
def fileColumn (stem : String) : Option String :=
  (file_mappings.find? (fun pc => hasSub pc.1.data (toLowerChars stem.data))).map
    (fun pc => pc.2)

/-- One entry of the months table of main. -/
structure MonthInfo where
  month : String
  month_num : Nat
  year : Nat
deriving DecidableEq, Repr

/-- months['jan 25']. -/
def janInfo : MonthInfo := ⟨"January", 1, 2025⟩

/-- months['feb 25']. -/
def febInfo : MonthInfo := ⟨"February", 2, 2025⟩

/-- One output record of the monthly parser: ParkName, Year, Month plus the
metric dict accumulated from the files of the month. -/
structure ParkRecord where
  parkName : String
  year : Nat
  month : String
  metrics : List (String × Option Int)
deriving DecidableEq, Repr

/-- The month_data entry used for a park: the existing one, or a fresh record
carrying the folder's year and month. -/
def parkEntry (md : List (String × ParkRecord)) (mi : MonthInfo) (park : String) :
    ParkRecord :=
  match dictGet md park with
  | some r => r
  | none => { parkName := park, year := mi.year, month := mi.month,
              metrics := ([] : List (String × Option Int)) }

/-- One iteration of the value loop of main: initialize a park entry on first
sight, then set the metric column for that park. -/
def addPark (md : List (String × ParkRecord)) (mi : MonthInfo) (col : String)
    (pv : String × Option Int) : List (String × ParkRecord) :=
  dictInsert md pv.1
    { parkEntry md mi pv.1 with
      metrics := dictInsert (parkEntry md mi pv.1).metrics col pv.2 }

/-- Merging one parsed file (metric column col) into month_data, as in the
inner loop of main. -/
def addFile (md : List (String × ParkRecord)) (mi : MonthInfo) (col : String)
    (parkValues : List (String × Option Int)) : List (String × ParkRecord) :=
  parkValues.foldl (fun md pv => addPark md mi col pv) md

/-- One iteration of the file loop of main: a file whose stem matches no
pattern is skipped, otherwise its parsed values are merged. -/
def folderStep (mi : MonthInfo) (md : List (String × ParkRecord))
    (f : String × List (List PyVal)) : List (String × ParkRecord) :=
  match fileColumn f.1 with
  | none => md
  | some col => addFile md mi col (parse_csv_file f.2)

/-- Processing one month folder: each file is (stem, parsed rows). -/
def processFolder (mi : MonthInfo) (files : List (String × List (List PyVal))) :
    List (String × ParkRecord) :=
  files.foldl (folderStep mi) []

/-- all_data: the January records followed by the February records. -/
def allData (janFiles febFiles : List (String × List (List PyVal))) : List ParkRecord :=
  (processFolder janInfo janFiles).map (fun p => p.2)
    ++ (processFolder febInfo febFiles).map (fun p => p.2)

/-- Metric cell of a record in the final table: a metric never set for this
record is null (NaN from DataFrame construction or the expected-columns None
fill). -/
def recordCell (r : ParkRecord) (col : String) : Option Int :=
  (dictGet r.metrics col).join

/-- month_order mapping {'January': 1, 'February': 2}; any other month maps
to NaN, which pandas sorts last, modelled as 3. -/
def monthOrderKey (m : String) : Nat :=
  if m = "January" then 1 else if m = "February" then 2 else 3

/-- Boolean alphabetical (lexicographic) order on character lists. -/
def alphaLE : List Char → List Char → Bool
  | [], _ => true
  | _ :: _, [] => false
  | a :: as, b :: bs => decide (a < b) || (a = b && alphaLE as bs)

/-- Lexicographic comparison on a numeric key followed by a string key, the
shape of both sort_values calls of the repository. -/
def natAlphaLE (m1 : Nat) (s1 : List Char) (m2 : Nat) (s2 : List Char) : Bool :=
  decide (m1 < m2) || (decide (m1 = m2) && alphaLE s1 s2)

/-- sort_values(['MonthOrder', 'ParkName']) comparison. -/
def rowLE (a b : ParkRecord) : Bool :=
  natAlphaLE (monthOrderKey a.month) a.parkName.data
    (monthOrderKey b.month) b.parkName.data

/-- The sort order of the monthly report as a relation. -/
def ReportLE (a b : ParkRecord) : Prop := rowLE a b = true

instance : DecidableRel ReportLE := fun a b => instDecidableEqBool (rowLE a b) true

/-- The final report of the monthly parser: all records sorted by month order
then park name, as by sort_values(['MonthOrder', 'ParkName']). -/
def finalReport (janFiles febFiles : List (String × List (List PyVal))) :
    List ParkRecord :=
  List.insertionSort ReportLE (allData janFiles febFiles)

/-- Column payload of the cleaner's dataframe: pandas object (string) dtype
or numeric dtype. -/
inductive ColData where
  | objs : List PyVal → ColData
  | ints : List Int → ColData
deriving DecidableEq, Repr

/-- A named dataframe column. -/
structure Column where
  name : String
  data : ColData
deriving DecidableEq, Repr

/-- Number of rows stored in a column. -/
def colLen : ColData → Nat
  | .objs vs => vs.length
  | .ints vs => vs.length

/-- dropna(axis=1, how='all') test: every value of the column is missing.
Typed numeric columns carry no missing value, and with zero rows every
column counts as all-missing, as in pandas. -/
def colAllNa : ColData → Bool
  | .objs vs => vs.all (fun v => v = PyVal.na)
  | .ints vs => vs.isEmpty

/-- Step 1 of clean_national_parks_data: drop auto-generated Unnamed columns
(the regex ^Unnamed) and then all-missing columns. -/
def step1 (df : List Column) : List Column :=
  (df.filter (fun c => ! startsWith "Unnamed".data c.name.data)).filter
    (fun c => ! colAllNa c.data)

/-- Step 2 cell operation: astype(str) then str.strip; a missing value is
first rendered as the string "nan". -/
def stripCell (v : PyVal) : PyVal := PyVal.str (String.mk (trimChars (cellToChars v)))

/-- Step 2: strip whitespace on every object-typed column. -/
def step2 (df : List Column) : List Column :=
  df.map (fun c => match c.data with
    | .objs vs => { c with data := ColData.objs (vs.map stripCell) }
    | .ints _ => c)

/-- numeric_cols from clean_national_parks.py. -/
def numeric_cols : List String :=
  ["RecreationVisits", "NonRecreationVisits", "RecreationHours",
   "NonRecreationHours", "ConcessionerLodging", "ConcessionerCamping",
   "TentCampers", "RVCampers", "Backcountry",
   "NonRecreationOvernightStays", "MiscellaneousOvernightStays",
   "MiscellaneousOvernightStaysTotal"]

/-- Step 3 cell operation: astype(str), str.replace(",", ""), to_numeric with
errors='coerce' (which tolerates surrounding whitespace; failures coerce to
missing), fillna(0), astype(int). -/
def cleanNumericCell (v : PyVal) : Int :=
  (parseNumber (trimChars (removeCommas (cellToChars v)))).getD 0

/-- Step 3 on one column: every cell through the cleaning coercion; an
already-numeric column round-trips through its string rendering. -/
def coerceCol : ColData → ColData
  | .objs vs => ColData.ints (vs.map cleanNumericCell)
  | .ints vs => ColData.ints (vs.map (fun n => cleanNumericCell (PyVal.num n)))

/-- Step 3: coerce each column of the numeric_cols list present in the
frame; absent names are skipped silently. -/
def step3 (df : List Column) : List Column :=
  df.map (fun c =>
    if numeric_cols.contains c.name then { c with data := coerceCol c.data } else c)

/-- Column lookup by name. -/
def findCol (df : List Column) (name : String) : Option Column :=
  df.find? (fun c => c.name = name)

/-- Step 4: drop MiscellaneousOvernightStaysTotal when both overnight-stay
columns are present and exactly equal. -/
def step4 (df : List Column) : List Column :=
  match findCol df "MiscellaneousOvernightStaysTotal",
        findCol df "MiscellaneousOvernightStays" with
  | some a, some b =>
      if a.data = b.data then
        df.filter (fun c => c.name ≠ "MiscellaneousOvernightStaysTotal")
      else df
  | _, _ => df

/-- pd.api.types.is_numeric_dtype. -/
def isNumericCol : ColData → Bool
  | .ints _ => true
  | .objs _ => false

/-- The all-zero test (df[col] == 0).all() of step 5. -/
def colAllZero : ColData → Bool
  | .ints vs => vs.all (fun v => v = 0)
  | .objs _ => false

/-- df[col].sum() for a numeric column. -/
def colSum : ColData → Int
  | .ints vs => vs.sum
  | .objs _ => 0

/-- Zero-column test of step 5: numeric dtype and (all values equal zero, or
the column sums to zero). -/
def isZeroCol (c : Column) : Bool :=
  isNumericCol c.data && (colAllZero c.data || decide (colSum c.data = 0))

/-- Step 5: drop the zero columns. -/
def step5 (df : List Column) : List Column := df.filter (fun c => ! isZeroCol c)

/-- cols_to_remove from step 5b. -/
def cols_to_remove : List String :=
  ["ConcessionerLodging", "ConcessionerCamping",
   "NonRecreationOvernightStays", "MiscellaneousOvernightStays",
   "MiscellaneousOvernightStaysTotal"]

/-- Step 5b: drop the fixed unwanted columns, whether or not present. -/
def step5b (df : List Column) : List Column :=
  df.filter (fun c => ! cols_to_remove.contains c.name)

/-- clean_national_parks_data: the full column pipeline. Steps 6 and 7 of the
script only print statistics and save the frame. -/
def clean_national_parks_data (df : List Column) : List Column :=
  step5b (step5 (step4 (step3 (step2 (step1 df)))))

/-- A row of the 1976-2020-president.csv table, restricted to the fields the
script touches. -/
structure ElectionRow where
  year : Nat
  state : String
  candidate : String
  candidatevotes : Int
deriving DecidableEq, Repr

/-- A row of winners_df: the selected row plus the added winner column. -/
structure WinnerRow where
  year : Nat
  state : String
  candidate : String
  candidatevotes : Int
  winner : String
deriving DecidableEq, Repr

/-- The rows of one (year, state) group, paired with their positional index
in the table. -/
def groupRows (df : List ElectionRow) (y : Nat) (s : String) :
    List (Nat × ElectionRow) :=
  df.enum.filter (fun p => decide (p.2.year = y) && decide (p.2.state = s))

/-- idxmax over the indexed rows of a group: the first row attaining the
maximum candidatevotes (pandas idxmax keeps the first index on ties). -/
def argmaxVotes : List (Nat × ElectionRow) → Option (Nat × ElectionRow)
  | [] => none
  | p :: rest =>
      match argmaxVotes rest with
      | none => some p
      | some q => if q.2.candidatevotes > p.2.candidatevotes then some q else some p

/-- The distinct (year, state) group keys present in the table. -/
def groupKeys (df : List ElectionRow) : List (Nat × String) :=
  (df.map (fun r => (r.year, r.state))).dedup

/-- The df.loc[idx] row of one group key, with the winner column set to the
candidate of that row. -/
def winnerRowFor (df : List ElectionRow) (k : Nat × String) : Option WinnerRow :=
  (argmaxVotes (groupRows df k.1 k.2)).map (fun p =>
    { year := p.2.year, state := p.2.state, candidate := p.2.candidate,
      candidatevotes := p.2.candidatevotes, winner := p.2.candidate })

/-- winners_df before the final sort: one selected row per group key. -/
def winnersRows (df : List ElectionRow) : List WinnerRow :=
  (groupKeys df).filterMap (winnerRowFor df)

/-- sort_values(['year', 'state']) comparison. -/
def winnerLE (a b : WinnerRow) : Bool :=
  natAlphaLE a.year a.state.data b.year b.state.data

/-- The sort order of winners_df as a relation. -/
def WinnerOrd (a b : WinnerRow) : Prop := winnerLE a b = true

instance : DecidableRel WinnerOrd := fun a b => instDecidableEqBool (winnerLE a b) true

/-- winners_df as written out: the selected rows sorted by (year, state). -/
def winners_df (df : List ElectionRow) : List WinnerRow :=
  List.insertionSort WinnerOrd (winnersRows df)

/-- All values of a numeric column are non-negative, as visitation counts
are. -/
def colNonneg : ColData → Prop
  | .ints vs => ∀ v ∈ vs, 0 ≤ v
  | .objs _ => True

/-- Invariant of month_data during the folder loop of main: keys are distinct
and every entry carries its key as ParkName together with the folder's year
and month. -/
def MDInv (mi : MonthInfo) (md : List (String × ParkRecord)) : Prop :=
  (dictKeys md).Nodup
    ∧ ∀ p ∈ md, p.2.parkName = p.1 ∧ p.2.year = mi.year ∧ p.2.month = mi.month

/-! ### General lemmas -/

/-- A predicate preserved by every step of a fold holds of the result. -/
theorem foldl_inv {α β : Type} (f : β → α → β) (P : β → Prop) :
    ∀ (l : List α) (b : β), P b → (∀ b' a, P b' → a ∈ l → P (f b' a)) →
      P (l.foldl f b)
  | [], _, hb, _ => hb
  | a :: l, b, hb, hf =>
      foldl_inv f P l (f b a) (hf b a hb (List.mem_cons_self a l))
        (fun b' x hb' hx => hf b' x hb' (List.mem_cons_of_mem a hx))

/-- alphaLE is total. -/
theorem alphaLE_total : ∀ a b : List Char, alphaLE a b = true ∨ alphaLE b a = true := by
  intro a
  induction a with
  | nil => intro b; left; rfl
  | cons x xs ih =>
      intro b
      cases b with
      | nil => right; rfl
      | cons y ys =>
          rcases lt_trichotomy x y with h | h | h
          · left; simp [alphaLE, h]
          · subst h
            rcases ih ys with h2 | h2
            · left; simp [alphaLE, h2]
            · right; simp [alphaLE, h2]
          · right; simp [alphaLE, h]

/-- alphaLE is transitive. -/
theorem alphaLE_trans : ∀ a b c : List Char,
    alphaLE a b = true → alphaLE b c = true → alphaLE a c = true := by
  intro a
  induction a with
  | nil => intro b c _ _; rfl
  | cons x xs ih =>
      intro b c hab hbc
      cases b with
      | nil => simp [alphaLE] at hab
      | cons y ys =>
          cases c with
          | nil => simp [alphaLE] at hbc
          | cons z zs =>
              simp only [alphaLE, Bool.or_eq_true, Bool.and_eq_true,
                decide_eq_true_eq] at hab hbc ⊢
              rcases hab with h1 | ⟨h1, h1'⟩
              · rcases hbc with h2 | ⟨h2, h2'⟩
                · exact Or.inl (lt_trans h1 h2)
                · exact Or.inl (h2 ▸ h1)
              · rcases hbc with h2 | ⟨h2, h2'⟩
                · exact Or.inl (h1 ▸ h2)
                · exact Or.inr ⟨h1.trans h2, ih ys zs h1' h2'⟩

/-- natAlphaLE is total. -/
theorem natAlphaLE_total (m1 : Nat) (s1 : List Char) (m2 : Nat) (s2 : List Char) :
    natAlphaLE m1 s1 m2 s2 = true ∨ natAlphaLE m2 s2 m1 s1 = true := by
  rcases Nat.lt_trichotomy m1 m2 with h | h | h
  · left; simp [natAlphaLE, h]
  · subst h
    rcases alphaLE_total s1 s2 with h2 | h2
    · left; simp [natAlphaLE, h2]
    · right; simp [natAlphaLE, h2]
  · right; simp [natAlphaLE, h]

/-- natAlphaLE is transitive. -/
theorem natAlphaLE_trans (m1 : Nat) (s1 : List Char) (m2 : Nat) (s2 : List Char)
    (m3 : Nat) (s3 : List Char) (h12 : natAlphaLE m1 s1 m2 s2 = true)
    (h23 : natAlphaLE m2 s2 m3 s3 = true) : natAlphaLE m1 s1 m3 s3 = true := by
  simp only [natAlphaLE, Bool.or_eq_true, Bool.and_eq_true,
    decide_eq_true_eq] at h12 h23 ⊢
  rcases h12 with h1 | ⟨h1, h1'⟩
  · rcases h23 with h2 | ⟨h2, h2'⟩
    · exact Or.inl (lt_trans h1 h2)
    · exact Or.inl (h2 ▸ h1)
  · rcases h23 with h2 | ⟨h2, h2'⟩
    · exact Or.inl (h1 ▸ h2)
    · exact Or.inr ⟨h1.trans h2, alphaLE_trans s1 s2 s3 h1' h2'⟩

/-! ### Dict lemmas -/

/-- The keys of the overwrite map of dictInsert are the old keys. -/
theorem dictKeys_overwrite {α : Type} (d : List (String × α)) (k : String) (v : α) :
    dictKeys (d.map (fun p => if p.1 = k then (k, v) else p)) = dictKeys d := by
  unfold dictKeys
  rw [List.map_map]
  apply List.map_congr_left
  intro p _
  by_cases h : p.1 = k
  · simp [h]
  · simp [h]

/-- The find? test of dictInsert succeeds exactly when the key is present. -/
theorem find?_isSome_iff_mem_dictKeys {α : Type} (d : List (String × α)) (k : String) :
    (d.find? (fun p => p.1 = k)).isSome = true ↔ k ∈ dictKeys d := by
  rw [List.find?_isSome]
  constructor
  · rintro ⟨x, hx, hpx⟩
    exact List.mem_map.mpr ⟨x, hx, of_decide_eq_true hpx⟩
  · intro h
    rcases List.mem_map.mp h with ⟨x, hx, hxk⟩
    exact ⟨x, hx, decide_eq_true hxk⟩

/-- Looking up the freshly assigned key returns the assigned value. -/
theorem dictGet_insert_self {α : Type} (d : List (String × α)) (k : String) (v : α) :
    dictGet (dictInsert d k v) k = some v := by
  unfold dictInsert
  by_cases h : (d.find? (fun p => p.1 = k)).isSome = true
  · rw [if_pos h]
    unfold dictGet
    rw [List.find?_map]
    have hpred : ((fun p : String × α => decide (p.1 = k)) ∘
        (fun p => if p.1 = k then (k, v) else p)) =
        (fun p : String × α => decide (p.1 = k)) := by
      funext q
      by_cases hq : q.1 = k
      · simp [hq]
      · simp [hq]
    rw [hpred]
    rcases Option.isSome_iff_exists.mp h with ⟨a, ha⟩
    have ha' := List.find?_some ha
    have hak : a.1 = k := of_decide_eq_true ha'
    rw [ha]
    simp [hak]
  · rw [if_neg h]
    unfold dictGet
    rw [List.find?_append]
    have hnone : d.find? (fun p => p.1 = k) = none :=
      Option.not_isSome_iff_eq_none.mp h
    rw [hnone]
    simp

/-- Assigning one key leaves lookups of other keys unchanged. -/
theorem dictGet_insert_ne {α : Type} (d : List (String × α)) (k k' : String) (v : α)
    (h : k' ≠ k) : dictGet (dictInsert d k v) k' = dictGet d k' := by
  unfold dictInsert
  by_cases hs : (d.find? (fun p => p.1 = k)).isSome = true
  · rw [if_pos hs]
    unfold dictGet
    rw [List.find?_map]
    have hpred : ((fun p : String × α => decide (p.1 = k')) ∘
        (fun p => if p.1 = k then (k, v) else p)) =
        (fun p : String × α => decide (p.1 = k')) := by
      funext q
      have h1 : ¬ (k = k') := fun hk => h hk.symm
      by_cases hq : q.1 = k
      · have h2 : ¬ (q.1 = k') := fun hk => h1 (hq.symm.trans hk)
        simp [hq, h1, h2]
      · simp [hq]
    rw [hpred]
    cases hfind : d.find? (fun p => p.1 = k') with
    | none => simp
    | some a =>
        have hfind' := List.find?_some hfind
        have hak : a.1 = k' := of_decide_eq_true hfind'
        have : ¬ a.1 = k := fun hk => h (hak ▸ hk)
        simp [this]
  · rw [if_neg hs]
    unfold dictGet
    rw [List.find?_append]
    have hkk : decide (k = k') = false := decide_eq_false (fun hk => h hk.symm)
    have : ([(k, v)].find? (fun p => p.1 = k')) = none := by
      simp [List.find?, hkk]
    rw [this]
    simp

/-- An entry of dictInsert is an old entry or the assigned pair. -/
theorem mem_dictInsert {α : Type} (d : List (String × α)) (k : String) (v : α)
    (x : String × α) (hx : x ∈ dictInsert d k v) : x ∈ d ∨ x = (k, v) := by
  unfold dictInsert at hx
  by_cases hs : (d.find? (fun p => p.1 = k)).isSome = true
  · rw [if_pos hs] at hx
    rcases List.mem_map.mp hx with ⟨q, hq, hqx⟩
    by_cases hqk : q.1 = k
    · right; rw [← hqx]; simp [hqk]
    · left; rw [← hqx]; simpa [hqk] using hq
  · rw [if_neg hs] at hx
    rcases List.mem_append.mp hx with h | h
    · exact Or.inl h
    · right; simpa using h

/-- The keys after an assignment: unchanged on overwrite, extended by the new
key otherwise. -/
theorem mem_dictKeys_insert {α : Type} (d : List (String × α)) (k : String) (v : α)
    (x : String) : x ∈ dictKeys (dictInsert d k v) ↔ x ∈ dictKeys d ∨ x = k := by
  unfold dictInsert
  by_cases hs : (d.find? (fun p => p.1 = k)).isSome = true
  · rw [if_pos hs, dictKeys_overwrite]
    have hk : k ∈ dictKeys d := (find?_isSome_iff_mem_dictKeys d k).mp hs
    constructor
    · exact Or.inl
    · rintro (h | h)
      · exact h
      · exact h ▸ hk
  · rw [if_neg hs]
    unfold dictKeys
    rw [List.map_append]
    simp [List.mem_append]

/-- dictInsert preserves distinctness of the keys. -/
theorem nodup_dictKeys_insert {α : Type} (d : List (String × α)) (k : String) (v : α)
    (h : (dictKeys d).Nodup) : (dictKeys (dictInsert d k v)).Nodup := by
  unfold dictInsert
  by_cases hs : (d.find? (fun p => p.1 = k)).isSome = true
  · rw [if_pos hs, dictKeys_overwrite]; exact h
  · rw [if_neg hs]
    have hk : k ∉ dictKeys d := fun hmem =>
      hs ((find?_isSome_iff_mem_dictKeys d k).mpr hmem)
    unfold dictKeys
    rw [List.map_append]
    rw [List.nodup_append]
    refine ⟨h, List.nodup_singleton k, ?_⟩
    intro x hx hx'
    simp only [List.map_cons, List.map_nil, List.mem_singleton] at hx'
    exact hk (hx' ▸ hx)

/-- Lookup of an absent key fails. -/
theorem dictGet_eq_none_of_not_mem {α : Type} (d : List (String × α)) (k : String)
    (h : k ∉ dictKeys d) : dictGet d k = none := by
  unfold dictGet
  have : d.find? (fun p => p.1 = k) = none := by
    rw [List.find?_eq_none]
    intro x hx hpx
    exact h (List.mem_map.mpr ⟨x, hx, of_decide_eq_true hpx⟩)
  rw [this]
  rfl

/-- A successful lookup names an entry of the dict. -/
theorem dictGet_mem {α : Type} (d : List (String × α)) (k : String) (v : α)
    (h : dictGet d k = some v) : (k, v) ∈ d := by
  unfold dictGet at h
  cases hfind : d.find? (fun p => p.1 = k) with
  | none => rw [hfind] at h; cases h
  | some a =>
      rw [hfind] at h
      have hfind' := List.find?_some hfind
      have hak : a.1 = k := of_decide_eq_true hfind'
      have hav : a.2 = v := by simpa using h
      have : a = (k, v) := Prod.ext hak hav
      exact this ▸ List.mem_of_find?_eq_some hfind

/-! ### Cleaner lemmas -/

/-- Step 1 only drops columns. -/
theorem mem_step1 (df : List Column) (c : Column) (h : c ∈ step1 df) : c ∈ df :=
  List.mem_of_mem_filter (List.mem_of_mem_filter h)

/-- Step 2 rewrites columns cell-wise, preserving their length. -/
theorem mem_step2 (df : List Column) (c : Column) (h : c ∈ step2 df) :
    ∃ c0 ∈ df, colLen c.data = colLen c0.data := by
  rcases List.mem_map.mp h with ⟨c0, hc0, hmap⟩
  refine ⟨c0, hc0, ?_⟩
  rw [← hmap]
  cases hd : c0.data with
  | objs vs => simp [hd, colLen]
  | ints vs => simp [hd, colLen]

/-- Coercion preserves the length of a column. -/
theorem colLen_coerceCol (d : ColData) : colLen (coerceCol d) = colLen d := by
  cases d with
  | objs vs => simp [coerceCol, colLen]
  | ints vs => simp [coerceCol, colLen]

/-- Step 3 rewrites columns cell-wise, preserving their length. -/
theorem mem_step3 (df : List Column) (c : Column) (h : c ∈ step3 df) :
    ∃ c0 ∈ df, colLen c.data = colLen c0.data := by
  rcases List.mem_map.mp h with ⟨c0, hc0, hmap⟩
  refine ⟨c0, hc0, ?_⟩
  rw [← hmap]
  by_cases hn : numeric_cols.contains c0.name = true
  · rw [if_pos hn]
    exact colLen_coerceCol c0.data
  · rw [if_neg hn]

/-- Step 4 only drops columns. -/
theorem mem_step4 (df : List Column) (c : Column) (h : c ∈ step4 df) : c ∈ df := by
  unfold step4 at h
  split at h
  · split at h
    · exact List.mem_of_mem_filter h
    · exact h
  · exact h

/-- A list of non-negative integers summing to zero is all zero. -/
theorem sum_zero_all_zero (vs : List Int) (hnn : ∀ v ∈ vs, 0 ≤ v)
    (hs : vs.sum = 0) : ∀ v ∈ vs, v = 0 := by
  induction vs with
  | nil => intro v hv; cases hv
  | cons x xs ih =>
      have hx : 0 ≤ x := hnn x (List.mem_cons_self x xs)
      have hxs : 0 ≤ xs.sum :=
        List.sum_nonneg (fun v hv => hnn v (List.mem_cons_of_mem x hv))
      rw [List.sum_cons] at hs
      have hx0 : x = 0 := by omega
      have hsum0 : xs.sum = 0 := by omega
      intro v hv
      rcases List.mem_cons.mp hv with h | h
      · exact h ▸ hx0
      · exact ih (fun u hu => hnn u (List.mem_cons_of_mem x hu)) hsum0 v h

/-! ### Claim theorems for the cleaner -/

/-- C2 counterexample: in parse_monthly_data.py an unparseable numeric string
is replaced with None (null), not with a zero value. -/
theorem coercion_failure_cex :
    remove_commas_from_number (PyVal.str "n/a") = none
    ∧ ¬ remove_commas_from_number (PyVal.str "n/a") = some 0 := by decide

/-- C2 (amended): both scripts strip thousands-separator commas and parse the
result ("1,234" parses to 1234 in each); the cleaner replaces values that
fail to parse (and missing values) with zero, while the monthly parser's
remove_commas_from_number yields a null (None) for them. -/
theorem numeric_coercion (s : String) (n : Int) :
    (parseNumber (trimChars (removeCommas s.data)) = none →
        cleanNumericCell (PyVal.str s) = 0)
    ∧ (parseNumber (trimChars (removeCommas s.data)) = some n →
        cleanNumericCell (PyVal.str s) = n
        ∧ remove_commas_from_number (PyVal.str s) = some n)
    ∧ (trimChars (removeCommas s.data) ≠ [] →
        trimChars (removeCommas s.data) ≠ ['0'] →
        parseNumber (trimChars (removeCommas s.data)) = none →
        remove_commas_from_number (PyVal.str s) = none)
    ∧ cleanNumericCell PyVal.na = 0
    ∧ remove_commas_from_number PyVal.na = none
    ∧ cleanNumericCell (PyVal.str "1,234") = 1234
    ∧ remove_commas_from_number (PyVal.str "1,234") = some 1234 := by
  refine ⟨?_, ?_, ?_, by decide, by decide, by decide, by decide⟩
  · intro h
    unfold cleanNumericCell cellToChars
    rw [h]
    rfl
  · intro h
    constructor
    · unfold cleanNumericCell cellToChars
      rw [h]
      rfl
    · show (if trimChars (removeCommas s.data) = []
            ∨ trimChars (removeCommas s.data) = ['0']
          then some 0 else parseNumber (trimChars (removeCommas s.data))) = some n
      by_cases h0 : trimChars (removeCommas s.data) = []
        ∨ trimChars (removeCommas s.data) = ['0']
      · rw [if_pos h0]
        rcases h0 with h0 | h0
        · rw [h0] at h; cases h
        · rw [h0] at h
          have : parseNumber ['0'] = some 0 := by decide
          rw [this] at h
          cases h
          rfl
      · rw [if_neg h0]
        exact h
  · intro h1 h2 h3
    show (if trimChars (removeCommas s.data) = []
          ∨ trimChars (removeCommas s.data) = ['0']
        then some 0 else parseNumber (trimChars (removeCommas s.data))) = none
    have h0 : ¬ (trimChars (removeCommas s.data) = []
        ∨ trimChars (removeCommas s.data) = ['0']) := by
      rintro (h | h)
      · exact h1 h
      · exact h2 h
    rw [if_neg h0]
    exact h3

/-- C2 witness: the amended statement at a concrete unparseable input. -/
theorem numeric_coercion_witness : cleanNumericCell (PyVal.str "x,y") = 0 :=
  (numeric_coercion "x,y" 0).1 (by decide)

/-- C5 counterexample: a numeric column holding 1 and -1 is not all-zero yet
is removed at the zero-column step, because its sum is zero. -/
theorem zero_column_cex :
    colAllZero (ColData.ints [1, -1]) = false
    ∧ isNumericCol (ColData.ints [1, -1]) = true
    ∧ step5 [⟨"Delta", ColData.ints [1, -1]⟩] = [] := by decide

/-- C5 (amended): a numeric-typed column is removed at the zero-column step
iff all of its values are zero or its values sum to zero; every all-zero
numeric column is absent from the step's output, and a numeric column of
non-negative values is removed iff it is all zero. -/
theorem zero_column_step (df : List Column) (c : Column) :
    (c ∈ step5 df ↔ c ∈ df ∧ isZeroCol c = false)
    ∧ (isZeroCol c = true ↔
        isNumericCol c.data = true
          ∧ (colAllZero c.data = true ∨ colSum c.data = 0))
    ∧ (isNumericCol c.data = true → colAllZero c.data = true → c ∉ step5 df)
    ∧ (colNonneg c.data →
        (isZeroCol c = true ↔
          isNumericCol c.data = true ∧ colAllZero c.data = true)) := by
  have hmem : c ∈ step5 df ↔ c ∈ df ∧ isZeroCol c = false := by
    unfold step5
    rw [List.mem_filter]
    simp
  have hchar : isZeroCol c = true ↔
      isNumericCol c.data = true
        ∧ (colAllZero c.data = true ∨ colSum c.data = 0) := by
    unfold isZeroCol
    simp [Bool.and_eq_true, Bool.or_eq_true, decide_eq_true_eq]
  refine ⟨hmem, hchar, ?_, ?_⟩
  · intro hnum hzero hc
    have : isZeroCol c = false := (hmem.mp hc).2
    rw [hchar.symm.mp] at this
    · cases this
    · exact ⟨hnum, Or.inl hzero⟩
  · intro hnn
    rw [hchar]
    constructor
    · rintro ⟨hnum, hz | hs⟩
      · exact ⟨hnum, hz⟩
      · refine ⟨hnum, ?_⟩
        cases hd : c.data with
        | objs vs =>
            rw [hd] at hnum
            simp [isNumericCol] at hnum
        | ints vs =>
            rw [hd] at hs hnn
            unfold colSum at hs
            unfold colNonneg at hnn
            unfold colAllZero
            rw [List.all_eq_true]
            intro v hv
            exact decide_eq_true (sum_zero_all_zero vs hnn hs v hv)
    · rintro ⟨hnum, hz⟩
      exact ⟨hnum, Or.inl hz⟩

/-- C5 witness: the amended statement at a concrete frame: an all-zero column
is dropped and a non-negative column holding a 1 is kept. -/
theorem zero_column_step_witness :
    ⟨"Zeros", ColData.ints [0, 0]⟩ ∉
      step5 [⟨"Zeros", ColData.ints [0, 0]⟩, ⟨"Year", ColData.ints [0, 1]⟩] :=
  (zero_column_step [⟨"Zeros", ColData.ints [0, 0]⟩, ⟨"Year", ColData.ints [0, 1]⟩]
    ⟨"Zeros", ColData.ints [0, 0]⟩).2.2.1 (by decide) (by decide)

/-- C6: the five unwanted columns are absent from the cleaner's output for
every input, whatever their content. -/
theorem unwanted_columns_absent (df : List Column) :
    ∀ c ∈ clean_national_parks_data df,
      c.name ≠ "ConcessionerLodging" ∧ c.name ≠ "ConcessionerCamping"
        ∧ c.name ≠ "NonRecreationOvernightStays"
        ∧ c.name ≠ "MiscellaneousOvernightStays"
        ∧ c.name ≠ "MiscellaneousOvernightStaysTotal" := by
  intro c hc
  unfold clean_national_parks_data step5b at hc
  have h := (List.mem_filter.mp hc).2
  simp only [Bool.not_eq_true'] at h
  have hmem : c.name ∉ cols_to_remove := by
    intro hm
    have h2 : cols_to_remove.contains c.name = true := List.elem_iff.mpr hm
    rw [h] at h2
    cases h2
  unfold cols_to_remove at hmem
  simp only [List.mem_cons, List.not_mem_nil, or_false, not_or] at hmem
  exact ⟨hmem.1, hmem.2.1, hmem.2.2.1, hmem.2.2.2.1, hmem.2.2.2.2⟩

/-- C6 witness: the theorem applied to a frame holding a duplicate
MiscellaneousOvernightStaysTotal column; the surviving Year column is none of
the five. -/
theorem unwanted_columns_absent_witness :
    "Year" ≠ "ConcessionerLodging" ∧ "Year" ≠ "ConcessionerCamping"
      ∧ "Year" ≠ "NonRecreationOvernightStays"
      ∧ "Year" ≠ "MiscellaneousOvernightStays"
      ∧ "Year" ≠ "MiscellaneousOvernightStaysTotal" :=
  unwanted_columns_absent
    [⟨"Year", ColData.ints [2025]⟩,
     ⟨"MiscellaneousOvernightStays", ColData.ints [7]⟩,
     ⟨"MiscellaneousOvernightStaysTotal", ColData.ints [7]⟩]
    ⟨"Year", ColData.ints [2025]⟩ (by decide)

/-- C7: the cleaner never filters rows: every column of the output keeps the
common row count of the input columns. -/
theorem clean_preserves_row_count (df : List Column) (n : Nat)
    (h : ∀ c ∈ df, colLen c.data = n) :
    ∀ c ∈ clean_national_parks_data df, colLen c.data = n := by
  intro c hc
  unfold clean_national_parks_data at hc
  unfold step5b at hc
  have hc5 : c ∈ step5 (step4 (step3 (step2 (step1 df)))) :=
    List.mem_of_mem_filter hc
  unfold step5 at hc5
  have hc4 : c ∈ step4 (step3 (step2 (step1 df))) := List.mem_of_mem_filter hc5
  have hc3 : c ∈ step3 (step2 (step1 df)) := mem_step4 _ c hc4
  rcases mem_step3 _ c hc3 with ⟨c2, hc2, hlen3⟩
  rcases mem_step2 _ c2 hc2 with ⟨c1, hc1, hlen2⟩
  have hc0 : c1 ∈ df := mem_step1 df c1 hc1
  rw [hlen3, hlen2]
  exact h c1 hc0

/-- C7 witness: the theorem at a concrete two-row frame whose Unnamed and
zero columns are dropped. -/
theorem clean_preserves_row_count_witness :
    colLen (ColData.objs [PyVal.str "Acadia", PyVal.str "Zion"]) = 2 :=
  clean_preserves_row_count
    [⟨"ParkName", ColData.objs [PyVal.str "Acadia", PyVal.str "Zion"]⟩,
     ⟨"Unnamed: 3", ColData.objs [PyVal.na, PyVal.str "x"]⟩,
     ⟨"Zeros", ColData.ints [0, 0]⟩]
    2 (by decide)
    ⟨"ParkName", ColData.objs [PyVal.str "Acadia", PyVal.str "Zion"]⟩ (by decide)

/-- C10 counterexample: the string a null becomes under astype(str) is "nan",
which has three characters, not four. -/
theorem strip_nan_length_cex :
    stripCell PyVal.na = PyVal.str "nan" ∧ ¬ ("nan".data.length = 4) := by decide

/-- C10 (amended): the whitespace-stripping step applies astype(str) to every
object-typed column, so every missing value in a text column becomes the
literal three-character string "nan"; after this step no object-typed column
contains a null value. -/
theorem strip_step_nulls (df : List Column) :
    (stripCell PyVal.na = PyVal.str "nan" ∧ "nan".data.length = 3)
    ∧ (∀ c ∈ step2 df, ∀ vs, c.data = ColData.objs vs →
        ∀ v ∈ vs, v ≠ PyVal.na) := by
  refine ⟨by decide, ?_⟩
  intro c hc vs hvs v hv
  rcases List.mem_map.mp hc with ⟨c0, _, hmap⟩
  cases hd : c0.data with
  | ints vs0 =>
      rw [← hmap] at hvs
      rw [hd] at hvs
      simp only [hd] at hvs
      cases hvs
  | objs vs0 =>
      rw [← hmap] at hvs
      simp only [hd] at hvs
      have hvs' : vs = vs0.map stripCell := by
        simpa using hvs.symm
      rw [hvs'] at hv
      rcases List.mem_map.mp hv with ⟨v0, _, hveq⟩
      rw [← hveq]
      unfold stripCell
      intro hcontra
      cases hcontra

/-- C10 witness: the amended statement at a one-column frame holding a single
null. -/
theorem strip_step_nulls_witness : PyVal.str "nan" ≠ PyVal.na :=
  (strip_step_nulls [⟨"ParkName", ColData.objs [PyVal.na]⟩]).2
    ⟨"ParkName", ColData.objs [PyVal.str "nan"]⟩ (by decide)
    [PyVal.str "nan"] rfl (PyVal.str "nan") (by decide)

/-! ### Monthly parser: file matching and positional extraction -/

/-- find? returns the first element satisfying the predicate. -/
theorem find?_first_match {α : Type} (p : α → Bool) (l1 : List α) (l2 : List α)
    (a : α) (h1 : ∀ b ∈ l1, p b = false) (h2 : p a = true) :
    (l1 ++ a :: l2).find? p = some a := by
  induction l1 with
  | nil =>
      rw [List.nil_append]
      exact List.find?_cons_of_pos l2 h2
  | cons x xs ih =>
      have hx : ¬ p x = true := by
        rw [h1 x (List.mem_cons_self x xs)]
        exact Bool.false_ne_true
      rw [List.cons_append, List.find?_cons_of_neg _ hx]
      exact ih (fun b hb => h1 b (List.mem_cons_of_mem x hb))

/-- C3 counterexample: the stem "Non Recreation Visits" contains the pattern
"recreation visits" but its file populates NonRecreationVisits, not
RecreationVisits. -/
theorem pattern_priority_cex :
    hasSub "recreation visits".data (toLowerChars "Non Recreation Visits".data) = true
    ∧ fileColumn "Non Recreation Visits" = some "NonRecreationVisits"
    ∧ ¬ fileColumn "Non Recreation Visits" = some "RecreationVisits" := by decide

/-- C3 (amended): the populated metric column is selected by substring match
of the pattern table against the lowercased file name, first matching pattern
in table order winning; in particular a file whose name contains "recreation
visits" and none of the three earlier "non recreation" patterns populates the
RecreationVisits column. -/
theorem pattern_table_priority (stem : String) :
    (∀ l1 l2 pc, file_mappings = l1 ++ pc :: l2 →
        (∀ qc ∈ l1, hasSub qc.1.data (toLowerChars stem.data) = false) →
        hasSub pc.1.data (toLowerChars stem.data) = true →
        fileColumn stem = some pc.2)
    ∧ (∀ c, fileColumn stem = some c →
        ∃ pc ∈ file_mappings, pc.2 = c
          ∧ hasSub pc.1.data (toLowerChars stem.data) = true)
    ∧ (hasSub "recreation visits".data (toLowerChars stem.data) = true →
        hasSub "non recreation visits".data (toLowerChars stem.data) = false →
        hasSub "non recreation hours".data (toLowerChars stem.data) = false →
        hasSub "non recreation overnight stays".data (toLowerChars stem.data) = false →
        fileColumn stem = some "RecreationVisits") := by
  have hfirst : ∀ l1 l2 pc, file_mappings = l1 ++ pc :: l2 →
      (∀ qc ∈ l1, hasSub qc.1.data (toLowerChars stem.data) = false) →
      hasSub pc.1.data (toLowerChars stem.data) = true →
      fileColumn stem = some pc.2 := by
    intro l1 l2 pc hsplit hnone hmatch
    unfold fileColumn
    rw [hsplit, find?_first_match _ l1 l2 pc hnone hmatch]
    rfl
  refine ⟨hfirst, ?_, ?_⟩
  · intro c h
    unfold fileColumn at h
    cases hfind : file_mappings.find?
        (fun pc => hasSub pc.1.data (toLowerChars stem.data)) with
    | none => rw [hfind] at h; cases h
    | some pc =>
        rw [hfind] at h
        have hc : pc.2 = c := by simpa using h
        have hp := List.find?_some hfind
        exact ⟨pc, List.mem_of_find?_eq_some hfind, hc, hp⟩
  · intro h1 h2 h3 h4
    have hsplit : file_mappings =
        [("non recreation visits", "NonRecreationVisits"),
         ("non recreation hours", "NonRecreationHours"),
         ("non recreation overnight stays", "NonRecreationOvernightStays")]
        ++ ("recreation visits", "RecreationVisits") ::
        [("recreation hours", "RecreationHours"),
         ("concessioner lodging", "ConcessionerLodging"),
         ("concessioner camping", "ConcessionerCamping"),
         ("tent campers", "TentCampers"),
         ("rv campers", "RVCampers"),
         ("backcountry campers", "Backcountry"),
         ("miscellaneous overnight stays", "MiscellaneousOvernightStays")] := rfl
    refine hfirst _ _ _ hsplit ?_ h1
    intro qc hqc
    rcases List.mem_cons.mp hqc with rfl | hqc
    · exact h2
    rcases List.mem_cons.mp hqc with rfl | hqc
    · exact h3
    rcases List.mem_cons.mp hqc with rfl | hqc
    · exact h4
    cases hqc

/-- C3 witness: the amended statement at a concrete stem containing
"recreation visits" and no earlier pattern. -/
theorem pattern_table_priority_witness :
    fileColumn "Recreation Visits By Park" = some "RecreationVisits" :=
  (pattern_table_priority "Recreation Visits By Park").2.2
    (by decide) (by decide) (by decide) (by decide)

/-- C4: the metric value of every data row is read from fixed positional
index 6 (never by header name), a row with fewer than 7 cells yields 0, and
every entry the file parser emits is the index-6 value of one of its rows. -/
theorem positional_extraction (rows : List (List PyVal)) :
    (∀ row : List PyVal, row.length < 7 → rowValue row = some 0)
    ∧ (∀ row : List PyVal, 6 < row.length →
        rowValue row = remove_commas_from_number (row.getD 6 PyVal.na))
    ∧ (∀ pv ∈ parse_csv_file rows, ∃ row ∈ rows,
        rowPark row = some pv.1 ∧ rowValue row = pv.2) := by
  refine ⟨?_, ?_, ?_⟩
  · intro row hlen
    unfold rowValue
    rw [if_neg (by omega)]
  · intro row hlen
    unfold rowValue
    rw [if_pos hlen]
  · unfold parse_csv_file
    refine foldl_inv _
      (fun acc : List (String × Option Int) =>
        ∀ pv ∈ acc, ∃ row ∈ rows, rowPark row = some pv.1
          ∧ rowValue row = pv.2) rows [] ?_ ?_
    · intro pv hpv; cases hpv
    · intro acc row hacc hrow pv hpv
      cases hp : rowPark row with
      | none =>
          rw [hp] at hpv
          exact hacc pv hpv
      | some park =>
          rw [hp] at hpv
          have hpv' : pv ∈ dictInsert acc park (rowValue row) := hpv
          rcases mem_dictInsert acc park (rowValue row) pv hpv' with hold | hnew
          · exact hacc pv hold
          · refine ⟨row, hrow, ?_, ?_⟩
            · rw [hp, hnew]
            · rw [hnew]

/-- C4 witness: the positional rule at a concrete short row and a concrete
full row. -/
theorem positional_extraction_witness :
    rowValue [PyVal.str "Acadia", PyVal.str "5"] = some 0 :=
  (positional_extraction []).1 [PyVal.str "Acadia", PyVal.str "5"] (by decide)

/-! ### Monthly parser: month_data lemmas -/

/-- parkEntry returns the stored record when the park is present. -/
theorem parkEntry_of_get (md : List (String × ParkRecord)) (mi : MonthInfo)
    (p : String) (r : ParkRecord) (h : dictGet md p = some r) :
    parkEntry md mi p = r := by
  unfold parkEntry
  rw [h]

/-- parkEntry returns a fresh record when the park is absent. -/
theorem parkEntry_of_none (md : List (String × ParkRecord)) (mi : MonthInfo)
    (p : String) (h : dictGet md p = none) :
    parkEntry md mi p =
      ({ parkName := p, year := mi.year, month := mi.month, metrics := [] } :
        ParkRecord) := by
  unfold parkEntry
  rw [h]

/-- addPark preserves the month_data invariant. -/
theorem MDInv_addPark (md : List (String × ParkRecord)) (mi : MonthInfo)
    (col : String) (pv : String × Option Int) (h : MDInv mi md) :
    MDInv mi (addPark md mi col pv) := by
  constructor
  · exact nodup_dictKeys_insert md pv.1 _ h.1
  · intro q hq
    have hq' : q ∈ dictInsert md pv.1
        { parkEntry md mi pv.1 with
          metrics := dictInsert (parkEntry md mi pv.1).metrics col pv.2 } := hq
    rcases mem_dictInsert _ _ _ q hq' with hold | hnew
    · exact h.2 q hold
    · have hpe : (parkEntry md mi pv.1).parkName = pv.1
          ∧ (parkEntry md mi pv.1).year = mi.year
          ∧ (parkEntry md mi pv.1).month = mi.month := by
        cases hget : dictGet md pv.1 with
        | some r =>
            rw [parkEntry_of_get md mi pv.1 r hget]
            have hinv := h.2 (pv.1, r) (dictGet_mem md pv.1 r hget)
            exact ⟨hinv.1, hinv.2.1, hinv.2.2⟩
        | none =>
            rw [parkEntry_of_none md mi pv.1 hget]
            exact ⟨rfl, rfl, rfl⟩
      rw [hnew]
      exact ⟨hpe.1, hpe.2.1, hpe.2.2⟩

/-- addFile preserves the month_data invariant. -/
theorem MDInv_addFile (mi : MonthInfo) (col : String)
    (pvs : List (String × Option Int)) (md : List (String × ParkRecord))
    (h : MDInv mi md) : MDInv mi (addFile md mi col pvs) :=
  foldl_inv _ (MDInv mi) pvs md h
    (fun md' pv h' _ => MDInv_addPark md' mi col pv h')

/-- The whole folder loop keeps the month_data invariant. -/
theorem MDInv_processFolder (mi : MonthInfo)
    (files : List (String × List (List PyVal))) :
    MDInv mi (processFolder mi files) := by
  unfold processFolder
  refine foldl_inv _ (MDInv mi) files []
    ⟨List.nodup_nil, by intro p hp; cases hp⟩ ?_
  intro md f h _
  unfold folderStep
  cases hfc : fileColumn f.1 with
  | none => exact h
  | some col => exact MDInv_addFile mi col (parse_csv_file f.2) md h

/-- A metric already set for a park survives addPark. -/
theorem addPark_preserves_metric (md : List (String × ParkRecord))
    (mi : MonthInfo) (col : String) (pv : String × Option Int) (p x : String)
    (h : ∃ r, dictGet md p = some r ∧ x ∈ dictKeys r.metrics) :
    ∃ r, dictGet (addPark md mi col pv) p = some r ∧ x ∈ dictKeys r.metrics := by
  rcases h with ⟨r, hr, hx⟩
  unfold addPark
  by_cases hp : p = pv.1
  · subst hp
    refine ⟨_, dictGet_insert_self md pv.1 _, ?_⟩
    have he : parkEntry md mi pv.1 = r := parkEntry_of_get md mi pv.1 r hr
    rw [he]
    exact (mem_dictKeys_insert _ _ _ x).mpr (Or.inl hx)
  · refine ⟨r, ?_, hx⟩
    rw [dictGet_insert_ne md pv.1 p _ hp]
    exact hr

/-- A metric already set for a park survives addFile. -/
theorem addFile_preserves_metric (mi : MonthInfo) (col : String) (p x : String)
    (pvs : List (String × Option Int)) (md : List (String × ParkRecord))
    (h : ∃ r, dictGet md p = some r ∧ x ∈ dictKeys r.metrics) :
    ∃ r, dictGet (addFile md mi col pvs) p = some r ∧ x ∈ dictKeys r.metrics := by
  refine foldl_inv (fun md pv => addPark md mi col pv)
    (fun md : List (String × ParkRecord) =>
      ∃ r, dictGet md p = some r ∧ x ∈ dictKeys r.metrics) pvs md h ?_
  intro md' pv h' _
  exact addPark_preserves_metric md' mi col pv p x h'

/-- addPark marks its own metric column for its own park. -/
theorem addPark_sets (md : List (String × ParkRecord)) (mi : MonthInfo)
    (col : String) (pv : String × Option Int) :
    ∃ r, dictGet (addPark md mi col pv) pv.1 = some r
      ∧ col ∈ dictKeys r.metrics := by
  unfold addPark
  refine ⟨_, dictGet_insert_self md pv.1 _, ?_⟩
  exact (mem_dictKeys_insert _ _ _ col).mpr (Or.inr rfl)

/-- Every park of a parsed file ends up with the file's metric column set. -/
theorem addFile_sets (mi : MonthInfo) (col : String) :
    ∀ (pvs : List (String × Option Int)) (md : List (String × ParkRecord))
      (p : String), p ∈ dictKeys pvs →
      ∃ r, dictGet (addFile md mi col pvs) p = some r
        ∧ col ∈ dictKeys r.metrics := by
  intro pvs
  induction pvs with
  | nil => intro md p hp; cases hp
  | cons pv rest ih =>
      intro md p hp
      by_cases hpp : p = pv.1
      · subst hpp
        exact addFile_preserves_metric mi col pv.1 col rest (addPark md mi col pv)
          (addPark_sets md mi col pv)
      · have hp' : p ∈ dictKeys rest := by
          have : p ∈ pv.1 :: dictKeys rest := hp
          rcases List.mem_cons.mp this with h | h
          · exact absurd h hpp
          · exact h
        exact ih (addPark md mi col pv) p hp'

/-- A metric key of a record after addPark was present before, or is the
added column for the added park. -/
theorem addPark_metric_provenance (md : List (String × ParkRecord))
    (mi : MonthInfo) (col : String) (pv : String × Option Int) (p x : String)
    (r : ParkRecord) (h : dictGet (addPark md mi col pv) p = some r)
    (hx : x ∈ dictKeys r.metrics) :
    (∃ r0, dictGet md p = some r0 ∧ x ∈ dictKeys r0.metrics)
      ∨ (x = col ∧ p = pv.1) := by
  unfold addPark at h
  by_cases hp : p = pv.1
  · subst hp
    rw [dictGet_insert_self] at h
    have hr := Option.some.inj h
    rw [← hr] at hx
    rcases (mem_dictKeys_insert _ _ _ x).mp hx with hold | hcol
    · cases hget : dictGet md pv.1 with
      | some r0 =>
          rw [parkEntry_of_get md mi pv.1 r0 hget] at hold
          exact Or.inl ⟨r0, rfl, hold⟩
      | none =>
          rw [parkEntry_of_none md mi pv.1 hget] at hold
          cases hold
    · exact Or.inr ⟨hcol, rfl⟩
  · left
    refine ⟨r, ?_, hx⟩
    rw [dictGet_insert_ne md pv.1 p _ hp] at h
    exact h

/-- A metric key of a record after addFile was present before, or is the
file's column for a park of the file. -/
theorem addFile_metric_provenance (mi : MonthInfo) (col : String) (p x : String) :
    ∀ (pvs : List (String × Option Int)) (md : List (String × ParkRecord))
      (r : ParkRecord), dictGet (addFile md mi col pvs) p = some r →
      x ∈ dictKeys r.metrics →
      (∃ r0, dictGet md p = some r0 ∧ x ∈ dictKeys r0.metrics)
        ∨ (x = col ∧ p ∈ dictKeys pvs) := by
  intro pvs
  induction pvs with
  | nil => intro md r h hx; exact Or.inl ⟨r, h, hx⟩
  | cons pv rest ih =>
      intro md r h hx
      have h' : dictGet (addFile (addPark md mi col pv) mi col rest) p = some r := h
      rcases ih (addPark md mi col pv) r h' hx with ⟨r0, hr0, hx0⟩ | ⟨hxc, hpr⟩
      · rcases addPark_metric_provenance md mi col pv p x r0 hr0 hx0
          with h1 | ⟨h1, h2⟩
        · exact Or.inl h1
        · refine Or.inr ⟨h1, ?_⟩
          show p ∈ pv.1 :: dictKeys rest
          exact List.mem_cons.mpr (Or.inl h2)
      · refine Or.inr ⟨hxc, ?_⟩
        show p ∈ pv.1 :: dictKeys rest
        exact List.mem_cons.mpr (Or.inr hpr)

/-- A park's set metric survives the rest of the folder loop. -/
theorem files_preserve_metric (mi : MonthInfo) (p x : String)
    (files : List (String × List (List PyVal)))
    (md : List (String × ParkRecord))
    (h : ∃ r, dictGet md p = some r ∧ x ∈ dictKeys r.metrics) :
    ∃ r, dictGet (files.foldl (folderStep mi) md) p = some r
      ∧ x ∈ dictKeys r.metrics := by
  refine foldl_inv _
    (fun md => ∃ r, dictGet md p = some r ∧ x ∈ dictKeys r.metrics)
    files md h ?_
  intro md' f h' _
  unfold folderStep
  cases hfc : fileColumn f.1 with
  | none => exact h'
  | some col =>
      exact addFile_preserves_metric mi col p x (parse_csv_file f.2) md' h'

/-- A matched file containing a park forces that park's record to carry the
file's metric column from then on. -/
theorem folder_sets (mi : MonthInfo) (p : String) :
    ∀ (files : List (String × List (List PyVal)))
      (md : List (String × ParkRecord)) (f : String × List (List PyVal))
      (c : String), f ∈ files → fileColumn f.1 = some c →
      p ∈ dictKeys (parse_csv_file f.2) →
      ∃ r, dictGet (files.foldl (folderStep mi) md) p = some r
        ∧ c ∈ dictKeys r.metrics := by
  intro files
  induction files with
  | nil => intro md f c hf; cases hf
  | cons g gs ih =>
      intro md f c hf hfc hp
      rcases List.mem_cons.mp hf with rfl | hf'
      · have h1 : ∃ r, dictGet (folderStep mi md f) p = some r
            ∧ c ∈ dictKeys r.metrics := by
          unfold folderStep
          rw [hfc]
          exact addFile_sets mi c (parse_csv_file f.2) md p hp
        exact files_preserve_metric mi p c gs (folderStep mi md f) h1
      · exact ih (folderStep mi md g) f c hf' hfc hp

/-- Every metric key in month_data stems from a matched file of the folder
that contained the park. -/
theorem folder_metric_provenance (mi : MonthInfo) (p x : String) :
    ∀ (files : List (String × List (List PyVal)))
      (md : List (String × ParkRecord)) (r : ParkRecord),
      dictGet (files.foldl (folderStep mi) md) p = some r →
      x ∈ dictKeys r.metrics →
      (∃ r0, dictGet md p = some r0 ∧ x ∈ dictKeys r0.metrics)
        ∨ (∃ f ∈ files, fileColumn f.1 = some x
            ∧ p ∈ dictKeys (parse_csv_file f.2)) := by
  intro files
  induction files with
  | nil => intro md r h hx; exact Or.inl ⟨r, h, hx⟩
  | cons g gs ih =>
      intro md r h hx
      have h' : dictGet (gs.foldl (folderStep mi) (folderStep mi md g)) p
          = some r := h
      rcases ih (folderStep mi md g) r h' hx with ⟨r0, hr0, hx0⟩ | ⟨f, hf, hfc, hp⟩
      · cases hfc : fileColumn g.1 with
        | none =>
            have hr0' : dictGet md p = some r0 := by
              unfold folderStep at hr0
              rw [hfc] at hr0
              exact hr0
            exact Or.inl ⟨r0, hr0', hx0⟩
        | some col =>
            have hr0' : dictGet (addFile md mi col (parse_csv_file g.2)) p
                = some r0 := by
              unfold folderStep at hr0
              rw [hfc] at hr0
              exact hr0
            rcases addFile_metric_provenance mi col p x (parse_csv_file g.2)
                md r0 hr0' hx0 with h1 | ⟨h1, h2⟩
            · exact Or.inl h1
            · refine Or.inr ⟨g, List.mem_cons_self g gs, ?_, h2⟩
              rw [h1]
              exact hfc
      · exact Or.inr ⟨f, List.mem_cons_of_mem g hf, hfc, hp⟩

/-- In a duplicate-free list each value is counted at most once. -/
theorem countP_keys_nodup (l : List String) (p : String) (h : l.Nodup) :
    l.countP (fun k => decide (k = p)) ≤ 1 := by
  induction l with
  | nil => simp
  | cons a as ih =>
      rw [List.countP_cons]
      by_cases hap : a = p
      · have h0 : as.countP (fun k => decide (k = p)) = 0 := by
          rw [List.countP_eq_zero]
          intro b hb hbp
          have hb' : b = p := of_decide_eq_true hbp
          exact (List.nodup_cons.mp h).1 (by rw [hap, ← hb']; exact hb)
        simp [h0, hap]
      · have hle := ih (List.nodup_cons.mp h).2
        have hcond : decide (a = p) = false := decide_eq_false hap
        simpa [hcond] using hle

/-- Under the month_data invariant a (park, month) key matches at most one
record of a folder. -/
theorem month_count_le_one (mi : MonthInfo) (md : List (String × ParkRecord))
    (h : MDInv mi md) (p m : String) :
    (md.map (fun e => e.2)).countP
      (fun r => decide (r.parkName = p) && decide (r.month = m)) ≤ 1 := by
  rw [List.countP_map]
  have hle : md.countP ((fun r : ParkRecord =>
        decide (r.parkName = p) && decide (r.month = m)) ∘ (fun e => e.2))
      ≤ md.countP (fun e => decide (e.1 = p)) := by
    apply List.countP_mono_left
    intro e he hpe
    simp only [Function.comp] at hpe
    rw [Bool.and_eq_true] at hpe
    rcases hpe with ⟨h1, _⟩
    have hk := (h.2 e he).1
    exact decide_eq_true (by rw [← hk]; exact of_decide_eq_true h1)
  refine le_trans hle ?_
  have hkeys : md.countP (fun e => decide (e.1 = p)) =
      (dictKeys md).countP (fun k => decide (k = p)) := by
    unfold dictKeys
    rw [List.countP_map]
    rfl
  rw [hkeys]
  exact countP_keys_nodup _ p h.1

/-- Records of a folder never match a foreign month. -/
theorem month_count_zero (mi : MonthInfo) (md : List (String × ParkRecord))
    (h : MDInv mi md) (p m : String) (hm : m ≠ mi.month) :
    (md.map (fun e => e.2)).countP
      (fun r => decide (r.parkName = p) && decide (r.month = m)) = 0 := by
  rw [List.countP_map, List.countP_eq_zero]
  intro e he hpe
  simp only [Function.comp] at hpe
  rw [Bool.and_eq_true] at hpe
  rcases hpe with ⟨_, h2⟩
  have hmonth := (h.2 e he).2.2
  exact hm ((of_decide_eq_true h2).symm.trans hmonth)

/-- C8: the output holds at most one record per (park, month) key; a park
found in a matched file of a month carries that file's metric column in its
single record from then on; a park whose record exists but which no matched
file maps to a column c has the metric c null in its record; and every
month_data record reaches the final report. -/
theorem month_merge (jf ff : List (String × List (List PyVal))) (p m : String) :
    ((finalReport jf ff).countP
        (fun r => decide (r.parkName = p) && decide (r.month = m)) ≤ 1)
    ∧ (∀ (mi : MonthInfo) (files : List (String × List (List PyVal)))
          (f : String × List (List PyVal)) (c : String),
        f ∈ files → fileColumn f.1 = some c →
        p ∈ dictKeys (parse_csv_file f.2) →
        ∃ r, dictGet (processFolder mi files) p = some r
          ∧ c ∈ dictKeys r.metrics)
    ∧ (∀ (mi : MonthInfo) (files : List (String × List (List PyVal)))
          (c : String) (r : ParkRecord),
        dictGet (processFolder mi files) p = some r →
        (∀ f ∈ files, fileColumn f.1 = some c →
          p ∉ dictKeys (parse_csv_file f.2)) →
        recordCell r c = none)
    ∧ (∀ r : ParkRecord,
        dictGet (processFolder janInfo jf) p = some r
          ∨ dictGet (processFolder febInfo ff) p = some r →
        r ∈ finalReport jf ff) := by
  refine ⟨?_, ?_, ?_, ?_⟩
  · unfold finalReport
    rw [List.Perm.countP_eq _ (List.perm_insertionSort ReportLE (allData jf ff))]
    unfold allData
    rw [List.countP_append]
    have hjan := MDInv_processFolder janInfo jf
    have hfeb := MDInv_processFolder febInfo ff
    by_cases hm : m = "January"
    · have h2 := month_count_zero febInfo _ hfeb p m
        (by rw [hm]; decide)
      have h1 := month_count_le_one janInfo _ hjan p m
      omega
    · have h1 := month_count_zero janInfo _ hjan p m hm
      have h2 := month_count_le_one febInfo _ hfeb p m
      omega
  · intro mi files f c hf hfc hp
    unfold processFolder
    exact folder_sets mi p files [] f c hf hfc hp
  · intro mi files c r hget hnone
    unfold processFolder at hget
    have hnotin : c ∉ dictKeys r.metrics := by
      intro hc
      rcases folder_metric_provenance mi p c files [] r hget hc with
        ⟨r0, hr0, _⟩ | ⟨f, hf, hfc, hp2⟩
      · simp [dictGet] at hr0
      · exact hnone f hf hfc hp2
    unfold recordCell
    rw [dictGet_eq_none_of_not_mem r.metrics c hnotin]
    rfl
  · intro r hr
    unfold finalReport
    rw [(List.perm_insertionSort ReportLE (allData jf ff)).mem_iff]
    unfold allData
    rw [List.mem_append]
    rcases hr with h | h
    · exact Or.inl (List.mem_map.mpr ⟨(p, r), dictGet_mem _ _ _ h, rfl⟩)
    · exact Or.inr (List.mem_map.mpr ⟨(p, r), dictGet_mem _ _ _ h, rfl⟩)

/-- C8 witness: a month with only a recreation-visits file leaves the
TentCampers metric of the park's record null. -/
theorem month_merge_witness :
    recordCell ⟨"Acadia", 2025, "January", [("RecreationVisits", some 10)]⟩
      "TentCampers" = none :=
  (month_merge [("recreation visits", [[PyVal.str "Acadia", PyVal.na, PyVal.na,
      PyVal.na, PyVal.na, PyVal.na, PyVal.str "10"]])] [] "Acadia" "January").2.2.1
    janInfo
    [("recreation visits", [[PyVal.str "Acadia", PyVal.na, PyVal.na, PyVal.na,
      PyVal.na, PyVal.na, PyVal.str "10"]])]
    "TentCampers" ⟨"Acadia", 2025, "January", [("RecreationVisits", some 10)]⟩
    (by decide) (by decide)

/-- C9: the final report is sorted with every January record before every
February record, and alphabetically by park name within a month. -/
theorem report_sorted (jf ff : List (String × List (List PyVal))) :
    (finalReport jf ff).Pairwise (fun a b =>
      (a.month = "January" ∧ b.month = "February")
      ∨ (a.month = b.month ∧ alphaLE a.parkName.data b.parkName.data = true)) := by
  haveI : IsTotal ParkRecord ReportLE := ⟨fun a b =>
    natAlphaLE_total (monthOrderKey a.month) a.parkName.data
      (monthOrderKey b.month) b.parkName.data⟩
  haveI : IsTrans ParkRecord ReportLE := ⟨fun a b c hab hbc =>
    natAlphaLE_trans (monthOrderKey a.month) a.parkName.data
      (monthOrderKey b.month) b.parkName.data
      (monthOrderKey c.month) c.parkName.data hab hbc⟩
  have hsorted := List.sorted_insertionSort ReportLE (allData jf ff)
  have hmonths : ∀ r ∈ allData jf ff,
      r.month = "January" ∨ r.month = "February" := by
    intro r hr
    unfold allData at hr
    rcases List.mem_append.mp hr with h | h
    · rcases List.mem_map.mp h with ⟨e, he, heq⟩
      left
      rw [← heq]
      exact ((MDInv_processFolder janInfo jf).2 e he).2.2
    · rcases List.mem_map.mp h with ⟨e, he, heq⟩
      right
      rw [← heq]
      exact ((MDInv_processFolder febInfo ff).2 e he).2.2
  unfold finalReport
  refine List.Pairwise.imp_of_mem ?_ hsorted
  intro a b ha hb hab
  have hperm := List.perm_insertionSort ReportLE (allData jf ff)
  have hma := hmonths a (hperm.mem_iff.mp ha)
  have hmb := hmonths b (hperm.mem_iff.mp hb)
  unfold ReportLE rowLE natAlphaLE at hab
  rw [Bool.or_eq_true, Bool.and_eq_true] at hab
  rcases hma with h1 | h1 <;> rcases hmb with h2 | h2
  · have hka : monthOrderKey a.month = 1 := by rw [h1]; decide
    have hkb : monthOrderKey b.month = 1 := by rw [h2]; decide
    rw [hka, hkb] at hab
    simp at hab
    exact Or.inr ⟨h1.trans h2.symm, hab⟩
  · exact Or.inl ⟨h1, h2⟩
  · have hka : monthOrderKey a.month = 2 := by rw [h1]; decide
    have hkb : monthOrderKey b.month = 1 := by rw [h2]; decide
    rw [hka, hkb] at hab
    simp at hab
  · have hka : monthOrderKey a.month = 2 := by rw [h1]; decide
    have hkb : monthOrderKey b.month = 2 := by rw [h2]; decide
    rw [hka, hkb] at hab
    simp at hab
    exact Or.inr ⟨h1.trans h2.symm, hab⟩

/-! ### Election winner lemmas -/

/-- Enumeration indices are strictly increasing. -/
theorem enumFrom_pairwise {α : Type} : ∀ (n : Nat) (l : List α),
    (List.enumFrom n l).Pairwise (fun a b => a.1 < b.1)
  | _, [] => List.Pairwise.nil
  | n, x :: xs => by
      show List.Pairwise _ ((n, x) :: List.enumFrom (n + 1) xs)
      refine List.Pairwise.cons ?_ (enumFrom_pairwise (n + 1) xs)
      intro p hp
      obtain ⟨i, y⟩ := p
      have h := List.mem_enumFrom hp
      exact Nat.lt_of_succ_le h.1

/-- The selected pair is one of the group's pairs. -/
theorem argmaxVotes_mem : ∀ (l : List (Nat × ElectionRow)) (q : Nat × ElectionRow),
    argmaxVotes l = some q → q ∈ l := by
  intro l
  induction l with
  | nil => intro q h; cases h
  | cons p rest ih =>
      intro q h
      unfold argmaxVotes at h
      split at h
      · rw [← Option.some.inj h]
        exact List.mem_cons_self p rest
      · rename_i q' hrec
        split at h
        · rw [← Option.some.inj h]
          exact List.mem_cons_of_mem p (ih q' hrec)
        · rw [← Option.some.inj h]
          exact List.mem_cons_self p rest

/-- idxmax of a nonempty group exists. -/
theorem argmaxVotes_isSome : ∀ l : List (Nat × ElectionRow), l ≠ [] →
    (argmaxVotes l).isSome = true := by
  intro l hl
  cases l with
  | nil => exact absurd rfl hl
  | cons p rest =>
      unfold argmaxVotes
      split
      · rfl
      · split
        · rfl
        · rfl

/-- The selected pair carries the maximum vote count of the group. -/
theorem argmaxVotes_max : ∀ (l : List (Nat × ElectionRow)) (q : Nat × ElectionRow),
    argmaxVotes l = some q →
    ∀ p ∈ l, p.2.candidatevotes ≤ q.2.candidatevotes := by
  intro l
  induction l with
  | nil => intro q h p hp; cases hp
  | cons a rest ih =>
      intro q h p hp
      unfold argmaxVotes at h
      split at h
      · rename_i hrec
        have hq := Option.some.inj h
        rcases List.mem_cons.mp hp with rfl | hp'
        · rw [← hq]
        · have hrest : rest = [] := by
            cases hr2 : rest with
            | nil => rfl
            | cons b rb =>
                have hs := argmaxVotes_isSome rest (by rw [hr2]; simp)
                rw [hrec] at hs
                cases hs
          rw [hrest] at hp'
          cases hp'
      · rename_i q' hrec
        split at h
        · rename_i hgt
          have hq := Option.some.inj h
          rcases List.mem_cons.mp hp with rfl | hp'
          · rw [← hq]
            exact le_of_lt hgt
          · rw [← hq]
            exact ih q' hrec p hp'
        · rename_i hgt
          have hq := Option.some.inj h
          rcases List.mem_cons.mp hp with rfl | hp'
          · rw [← hq]
          · rw [← hq]
            exact le_trans (ih q' hrec p hp') (not_lt.mp hgt)

/-- On ties the selected pair is the earliest one: any group row at a
strictly smaller index has strictly fewer votes. -/
theorem argmaxVotes_first : ∀ (l : List (Nat × ElectionRow)) (q : Nat × ElectionRow),
    l.Pairwise (fun a b => a.1 < b.1) → argmaxVotes l = some q →
    ∀ p ∈ l, p.1 < q.1 → p.2.candidatevotes < q.2.candidatevotes := by
  intro l
  induction l with
  | nil => intro q _ h; intro p hp; cases hp
  | cons a rest ih =>
      intro q hpw h p hp hlt
      have hpw' := List.pairwise_cons.mp hpw
      unfold argmaxVotes at h
      split at h
      · rename_i hrec
        have hq := Option.some.inj h
        rcases List.mem_cons.mp hp with rfl | hp'
        · rw [← hq] at hlt
          exact absurd hlt (lt_irrefl _)
        · have hrest : rest = [] := by
            cases hr2 : rest with
            | nil => rfl
            | cons b rb =>
                have hs := argmaxVotes_isSome rest (by rw [hr2]; simp)
                rw [hrec] at hs
                cases hs
          rw [hrest] at hp'
          cases hp'
      · rename_i q' hrec
        split at h
        · rename_i hgt
          have hq := Option.some.inj h
          rcases List.mem_cons.mp hp with rfl | hp'
          · rw [← hq]
            exact hgt
          · rw [← hq]
            rw [← hq] at hlt
            exact ih q' hpw'.2 hrec p hp' hlt
        · rename_i hgt
          have hq := Option.some.inj h
          rcases List.mem_cons.mp hp with rfl | hp'
          · rw [← hq] at hlt
            exact absurd hlt (lt_irrefl _)
          · have hgt2 := hpw'.1 p hp'
            rw [← hq] at hlt
            omega

/-- The indexed rows of a group have strictly increasing indices. -/
theorem groupRows_pairwise (df : List ElectionRow) (y : Nat) (s : String) :
    (groupRows df y s).Pairwise (fun a b => a.1 < b.1) :=
  List.Pairwise.sublist (List.filter_sublist _) (enumFrom_pairwise 0 df)

/-- Membership in a group in terms of positional lookup and the key. -/
theorem mem_groupRows (df : List ElectionRow) (y : Nat) (s : String)
    (p : Nat × ElectionRow) : p ∈ groupRows df y s ↔
    df[p.1]? = some p.2 ∧ p.2.year = y ∧ p.2.state = s := by
  unfold groupRows
  rw [List.mem_filter, List.mem_enum_iff_getElem?]
  constructor
  · rintro ⟨h1, h2⟩
    rw [Bool.and_eq_true] at h2
    exact ⟨h1, of_decide_eq_true h2.1, of_decide_eq_true h2.2⟩
  · rintro ⟨h1, h2, h3⟩
    refine ⟨h1, ?_⟩
    rw [Bool.and_eq_true]
    exact ⟨decide_eq_true h2, decide_eq_true h3⟩

/-- A row of the table makes its own group nonempty. -/
theorem groupRows_ne_nil (df : List ElectionRow) (r : ElectionRow) (hr : r ∈ df) :
    groupRows df r.year r.state ≠ [] := by
  intro hnil
  rcases List.getElem?_of_mem hr with ⟨i, hi⟩
  have hmem : ((i, r) : Nat × ElectionRow) ∈ groupRows df r.year r.state := by
    rw [mem_groupRows]
    exact ⟨hi, rfl, rfl⟩
  rw [hnil] at hmem
  cases hmem

/-- What the selected winner row of a group satisfies: its winner field is
its candidate, it carries the group key, and it is a table row holding the
group's maximum vote count, earliest on ties. -/
theorem winnerRowFor_spec (df : List ElectionRow) (k : Nat × String)
    (w : WinnerRow) (h : winnerRowFor df k = some w) :
    w.winner = w.candidate ∧ w.year = k.1 ∧ w.state = k.2
    ∧ ∃ (i : Nat) (r : ElectionRow), df[i]? = some r
        ∧ r.year = w.year ∧ r.state = w.state
        ∧ r.candidate = w.candidate ∧ r.candidatevotes = w.candidatevotes
        ∧ (∀ r' ∈ df, r'.year = w.year → r'.state = w.state →
            r'.candidatevotes ≤ r.candidatevotes)
        ∧ (∀ (j : Nat) (r' : ElectionRow), df[j]? = some r' →
            r'.year = w.year → r'.state = w.state →
            j < i → r'.candidatevotes < r.candidatevotes) := by
  unfold winnerRowFor at h
  cases hmax : argmaxVotes (groupRows df k.1 k.2) with
  | none => rw [hmax] at h; cases h
  | some q =>
      rw [hmax] at h
      have hw := Option.some.inj h
      subst hw
      have hqmem := argmaxVotes_mem _ q hmax
      rw [mem_groupRows] at hqmem
      rcases hqmem with ⟨hget, hqy, hqs⟩
      refine ⟨rfl, hqy, hqs, q.1, q.2, hget, rfl, rfl, rfl, rfl, ?_, ?_⟩
      · intro r' hr' hy' hs'
        rcases List.getElem?_of_mem hr' with ⟨j, hj⟩
        have hjm : ((j, r') : Nat × ElectionRow) ∈ groupRows df k.1 k.2 := by
          rw [mem_groupRows]
          exact ⟨hj, by rw [hy']; exact hqy, by rw [hs']; exact hqs⟩
        exact argmaxVotes_max _ q hmax (j, r') hjm
      · intro j r' hj hy' hs' hlt
        have hjm : ((j, r') : Nat × ElectionRow) ∈ groupRows df k.1 k.2 := by
          rw [mem_groupRows]
          exact ⟨hj, by rw [hy']; exact hqy, by rw [hs']; exact hqs⟩
        exact argmaxVotes_first _ q (groupRows_pairwise df k.1 k.2) hmax
          (j, r') hjm hlt

/-- Every key of a row present in the table yields a winner row. -/
theorem winnerRowFor_isSome (df : List ElectionRow) (y : Nat) (s : String)
    (r : ElectionRow) (hr : r ∈ df) (hy : r.year = y) (hs : r.state = s) :
    ∃ w, winnerRowFor df (y, s) = some w := by
  unfold winnerRowFor
  cases hmax : argmaxVotes (groupRows df y s) with
  | some q => exact ⟨_, rfl⟩
  | none =>
      exfalso
      have hne := groupRows_ne_nil df r hr
      rw [hy, hs] at hne
      have hs2 := argmaxVotes_isSome _ hne
      rw [hmax] at hs2
      cases hs2

/-- Counting winner rows over a duplicate-free key list: exactly one per
present key. -/
theorem countP_winnersRows (df : List ElectionRow) (y : Nat) (s : String) :
    ∀ ks : List (Nat × String), ks.Nodup →
      (∀ k ∈ ks, ∃ w, winnerRowFor df k = some w) →
      (ks.filterMap (winnerRowFor df)).countP
          (fun w => decide (w.year = y) && decide (w.state = s))
        = if (y, s) ∈ ks then 1 else 0 := by
  intro ks
  induction ks with
  | nil => intro _ _; simp
  | cons k rest ih =>
      intro hnd hall
      rcases hall k (List.mem_cons_self k rest) with ⟨w, hw⟩
      have hwy : w.year = k.1 := (winnerRowFor_spec df k w hw).2.1
      have hws : w.state = k.2 := (winnerRowFor_spec df k w hw).2.2.1
      have hrest := ih (List.nodup_cons.mp hnd).2
        (fun k' hk' => hall k' (List.mem_cons_of_mem k hk'))
      simp only [List.filterMap_cons, hw, List.countP_cons, hrest]
      by_cases hk : k = (y, s)
      · subst hk
        have hpred : (decide (w.year = y) && decide (w.state = s)) = true := by
          rw [Bool.and_eq_true]
          exact ⟨decide_eq_true hwy, decide_eq_true hws⟩
        have hnotin : (y, s) ∉ rest := (List.nodup_cons.mp hnd).1
        rw [hpred, if_pos rfl, if_neg hnotin, if_pos (List.mem_cons_self _ rest)]
      · have hpred : (decide (w.year = y) && decide (w.state = s)) = false := by
          rcases Bool.eq_false_or_eq_true
            (decide (w.year = y) && decide (w.state = s)) with hp | hp
          · exfalso
            rw [Bool.and_eq_true] at hp
            apply hk
            have h1 : k.1 = y := hwy.symm.trans (of_decide_eq_true hp.1)
            have h2 : k.2 = s := hws.symm.trans (of_decide_eq_true hp.2)
            rw [← h1, ← h2]
          · exact hp
        rw [hpred]
        have hmemiff : ((y, s) ∈ k :: rest) ↔ ((y, s) ∈ rest) := by
          rw [List.mem_cons]
          constructor
          · rintro (h | h)
            · exact absurd h.symm hk
            · exact h
          · exact Or.inr
        by_cases hin : (y, s) ∈ rest
        · rw [if_pos hin, if_pos (hmemiff.mpr hin)]
          simp
        · rw [if_neg hin, if_neg (fun hc => hin (hmemiff.mp hc))]
          simp

/-- C1: winners_df holds exactly one row per distinct (year, state) pair of
the input — the row with maximum candidatevotes in that group, ties resolved
by first index — and each output row's winner field equals its candidate
field. -/
theorem winners_one_per_group (df : List ElectionRow) (y : Nat) (s : String) :
    ((winners_df df).countP
        (fun w => decide (w.year = y) && decide (w.state = s))
      = if (y, s) ∈ df.map (fun r => (r.year, r.state)) then 1 else 0)
    ∧ (∀ w ∈ winners_df df, w.winner = w.candidate
        ∧ ∃ (i : Nat) (r : ElectionRow), df[i]? = some r
            ∧ r.year = w.year ∧ r.state = w.state
            ∧ r.candidate = w.candidate ∧ r.candidatevotes = w.candidatevotes
            ∧ (∀ r' ∈ df, r'.year = w.year → r'.state = w.state →
                r'.candidatevotes ≤ r.candidatevotes)
            ∧ (∀ (j : Nat) (r' : ElectionRow), df[j]? = some r' →
                r'.year = w.year → r'.state = w.state →
                j < i → r'.candidatevotes < r.candidatevotes)) := by
  constructor
  · unfold winners_df
    rw [List.Perm.countP_eq _ (List.perm_insertionSort WinnerOrd (winnersRows df))]
    unfold winnersRows
    rw [countP_winnersRows df y s (groupKeys df) (List.nodup_dedup _) ?_]
    · unfold groupKeys
      by_cases hmem : (y, s) ∈ df.map (fun r => (r.year, r.state))
      · rw [if_pos (List.mem_dedup.mpr hmem), if_pos hmem]
      · rw [if_neg (fun hc => hmem (List.mem_dedup.mp hc)), if_neg hmem]
    · intro k hk
      have hk' : k ∈ df.map (fun r => (r.year, r.state)) := List.mem_dedup.mp hk
      rcases List.mem_map.mp hk' with ⟨r, hr, hkey⟩
      have h := winnerRowFor_isSome df k.1 k.2 r hr
        (by rw [← hkey]) (by rw [← hkey])
      rcases h with ⟨w, hw⟩
      refine ⟨w, ?_⟩
      rw [← Prod.mk.eta (p := k)]
      exact hw
  · intro w hw
    unfold winners_df at hw
    have hw' := (List.perm_insertionSort WinnerOrd (winnersRows df)).mem_iff.mp hw
    unfold winnersRows at hw'
    rcases List.mem_filterMap.mp hw' with ⟨k, _, hwk⟩
    have hspec := winnerRowFor_spec df k w hwk
    exact ⟨hspec.1, hspec.2.2.2⟩

/-- C1 witness: the two-row group of the spec's example — votes 100 and 200
for (2020, "X") — yields exactly one output row, whose winner equals its
candidate. -/
theorem winners_one_per_group_witness :
    ((winners_df [⟨2020, "X", "A", 100⟩, ⟨2020, "X", "B", 200⟩]).countP
        (fun w => decide (w.year = 2020) && decide (w.state = "X")) = 1)
    ∧ (⟨2020, "X", "B", 200, "B"⟩ : WinnerRow).winner
        = (⟨2020, "X", "B", 200, "B"⟩ : WinnerRow).candidate := by
  constructor
  · have h := (winners_one_per_group
      [⟨2020, "X", "A", 100⟩, ⟨2020, "X", "B", 200⟩] 2020 "X").1
    rw [if_pos (by decide)] at h
    exact h
  · exact ((winners_one_per_group
      [⟨2020, "X", "A", 100⟩, ⟨2020, "X", "B", 200⟩] 2020 "X").2
      ⟨2020, "X", "B", 200, "B"⟩ (by decide)).1

end NPDS
